import Mathlib

/-!
Verification of the curve-fitting library `kfit.py` (SchusterLab/Common).

The definitions below are a shallow embedding of the Python source into
Lean 4.  Real-valued float data is modelled by exact rationals (`ℚ`);
transcendental kernels (`math.e ** t`, `np.sin t`) and the constant `np.pi`
are abstracted as explicit function/constant parameters, since every claim
settled here is about the algebraic wiring around them, not about the
transcendental functions themselves.  Side effects (console `print`) are
made explicit as returned message lists; Python exceptions that escape a
call are made explicit as dedicated result constructors.
-/

namespace Kfit

/-- Embedding of `np.searchsorted(xdata, v)` with the default `side='left'`:
for ascending `xdata` it returns the left insertion index of `v`, i.e. the
length of the maximal prefix of elements strictly below `v`
(`src/kfit.py:25`). -/
def searchsorted_left (xdata : List ℚ) (v : ℚ) : ℕ :=
  (xdata.takeWhile (fun t => decide (t < v))).length

/-- Embedding of `selectdomain(xdata, ydata, domain)` (`src/kfit.py:24-26`):
`ind = np.searchsorted(xdata, domain)` followed by the Python slices
`xdata[ind[0]:ind[1]], ydata[ind[0]:ind[1]]`.  A slice `l[i:j]` is
`(l.drop i).take (j - i)` (empty when `j ≤ i`, as in Python). -/
def selectdomain (xdata ydata : List ℚ) (domain : ℚ × ℚ) : List ℚ × List ℚ :=
  ((xdata.drop (searchsorted_left xdata domain.1)).take
      (searchsorted_left xdata domain.2 - searchsorted_left xdata domain.1),
   (ydata.drop (searchsorted_left xdata domain.1)).take
      (searchsorted_left xdata domain.2 - searchsorted_left xdata domain.1))

/-- If every element of `xs` is at least `a` and `lo ≤ a`, no prefix element
is below `lo`, so the left insertion index of `lo` is `0`. -/
theorem takeWhile_lt_eq_nil (xs : List ℚ) (lo a : ℚ) (hla : lo ≤ a)
    (hall : ∀ t ∈ xs, a ≤ t) :
    xs.takeWhile (fun t => decide (t < lo)) = [] := by
  cases xs with
  | nil => rfl
  | cons x t =>
    have hx : a ≤ x := hall x (by simp)
    simp [List.takeWhile_cons, not_lt.2 (hla.trans hx)]

/-- If every element of `xs` is at least `a` and `hi ≤ a`, no zipped pair
survives the window filter `lo ≤ x < hi`. -/
theorem zip_filter_window_nil (xs ys : List ℚ) (lo hi a : ℚ) (hge : hi ≤ a)
    (hall : ∀ t ∈ xs, a ≤ t) :
    (xs.zip ys).filter (fun q => decide (lo ≤ q.1 ∧ q.1 < hi)) = [] := by
  rw [List.filter_eq_nil_iff]
  rintro ⟨q1, q2⟩ hq
  have h1 : q1 ∈ xs := (List.of_mem_zip hq).1
  have ha : a ≤ q1 := hall q1 h1
  simp only [decide_eq_true_eq]
  rintro ⟨-, hlt⟩
  exact absurd hlt (not_lt.2 (hge.trans ha))

/-- Core characterization: on ascending `xdata` paired with an equally long
`ydata`, `selectdomain` returns exactly the zipped pairs whose `x`-value lies
in the half-open window `[lo, hi)`. -/
theorem selectdomain_eq_filter (xdata ydata : List ℚ) (lo hi : ℚ)
    (hs : xdata.Sorted (· ≤ ·)) (hl : xdata.length = ydata.length) :
    selectdomain xdata ydata (lo, hi) =
      ((xdata.zip ydata).filter (fun q => decide (lo ≤ q.1 ∧ q.1 < hi))).unzip := by
  induction xdata generalizing ydata with
  | nil =>
    simp [selectdomain, searchsorted_left]
  | cons a xs ih =>
    cases ydata with
    | nil => simp at hl
    | cons b ys =>
      rw [List.sorted_cons] at hs
      obtain ⟨ha, hs'⟩ := hs
      have hl' : xs.length = ys.length := by simpa using hl
      have hall : ∀ t ∈ a :: xs, a ≤ t := by
        intro t ht
        rcases List.mem_cons.1 ht with h | h
        · exact h ▸ le_rfl
        · exact ha t h
      by_cases hhi : a < hi
      · by_cases hlo : a < lo
        · -- a < lo and a < hi: the head is below the window, both sides drop it
          have e1 : searchsorted_left (a :: xs) lo = searchsorted_left xs lo + 1 := by
            simp [searchsorted_left, List.takeWhile_cons, hlo]
          have e2 : searchsorted_left (a :: xs) hi = searchsorted_left xs hi + 1 := by
            simp [searchsorted_left, List.takeWhile_cons, hhi]
          have hrhs : ((a :: xs).zip (b :: ys)).filter
                (fun q => decide (lo ≤ q.1 ∧ q.1 < hi))
              = (xs.zip ys).filter (fun q => decide (lo ≤ q.1 ∧ q.1 < hi)) := by
            simp [List.zip_cons_cons, List.filter_cons, not_le.2 hlo]
          rw [hrhs, ← ih ys hs' hl']
          simp [selectdomain, e1, e2, Nat.add_sub_add_right]
        · -- lo ≤ a < hi: the head is kept by both sides
          have e1 : searchsorted_left (a :: xs) lo = 0 := by
            simp [searchsorted_left, List.takeWhile_cons, hlo]
          have e1t : searchsorted_left xs lo = 0 := by
            unfold searchsorted_left
            rw [takeWhile_lt_eq_nil xs lo a (not_lt.1 hlo) ha]
            rfl
          have e2 : searchsorted_left (a :: xs) hi = searchsorted_left xs hi + 1 := by
            simp [searchsorted_left, List.takeWhile_cons, hhi]
          have hrhs : ((a :: xs).zip (b :: ys)).filter
                (fun q => decide (lo ≤ q.1 ∧ q.1 < hi))
              = (a, b) :: (xs.zip ys).filter (fun q => decide (lo ≤ q.1 ∧ q.1 < hi)) := by
            simp [List.zip_cons_cons, List.filter_cons, not_lt.1 hlo, hhi]
          have hkey := ih ys hs' hl'
          simp only [selectdomain, e1t, List.drop_zero, Nat.sub_zero] at hkey
          have h1 := congrArg Prod.fst hkey
          have h2 := congrArg Prod.snd hkey
          simp only at h1 h2
          simp only [selectdomain, e1, e2, List.drop_zero, Nat.sub_zero,
            List.take_succ_cons, hrhs, List.unzip_cons]
          rw [h1, h2]
      · -- hi ≤ a: the whole window is empty on both sides
        have e2 : searchsorted_left (a :: xs) hi = 0 := by
          simp [searchsorted_left, List.takeWhile_cons, hhi]
        have hnil := zip_filter_window_nil (a :: xs) (b :: ys) lo hi a (not_lt.1 hhi) hall
        rw [hnil]
        simp [selectdomain, e2]

/-- C1 (counterexample).  For the sorted data `x = [0,1,2]`, `y = [10,20,30]`,
restricting to the full range `(x[0], x[last]) = (0, 2)` does NOT return the
original sequences: the upper boundary is an exclusive left insertion point,
so the final point is dropped and `selectdomain` returns `([0,1], [10,20])`. -/
theorem C1_full_range_counterexample :
    selectdomain [0, 1, 2] [10, 20, 30] (0, 2) = ([0, 1], [10, 20]) ∧
    selectdomain [0, 1, 2] [10, 20, 30] (0, 2) ≠ ([0, 1, 2], [10, 20, 30]) := by
  constructor
  · rfl
  · decide

/-- C1 (amended).  For equal-length sequences with `x` sorted ascending,
`selectdomain x y (lo, hi)` returns exactly the contiguous subsequence of the
zipped data whose `x`-values satisfy `lo ≤ x < hi`; the inputs are returned
unchanged precisely when every `x`-value lies in that half-open window (in
particular the upper bound must be strictly above `x[last]`, so the full
range `(x[0], x[last])` drops the trailing points equal to `x[last]`). -/
theorem C1_selectdomain_window (xdata ydata : List ℚ) (lo hi : ℚ)
    (hs : xdata.Sorted (· ≤ ·)) (hl : xdata.length = ydata.length) :
    selectdomain xdata ydata (lo, hi) =
      ((xdata.zip ydata).filter (fun q => decide (lo ≤ q.1 ∧ q.1 < hi))).unzip ∧
    ((∀ t ∈ xdata, lo ≤ t ∧ t < hi) →
      selectdomain xdata ydata (lo, hi) = (xdata, ydata)) := by
  refine ⟨selectdomain_eq_filter xdata ydata lo hi hs hl, fun hall => ?_⟩
  rw [selectdomain_eq_filter xdata ydata lo hi hs hl]
  have hfull : (xdata.zip ydata).filter (fun q => decide (lo ≤ q.1 ∧ q.1 < hi))
      = xdata.zip ydata := by
    rw [List.filter_eq_self]
    rintro ⟨q1, q2⟩ hq
    have h1 : q1 ∈ xdata := (List.of_mem_zip hq).1
    simpa using hall q1 h1
  rw [hfull, List.unzip_zip hl]

/-- C1 (witness).  The amended theorem evaluated on concrete data: with
`x = [0,1,2,3]`, `y = [5,6,7,8]` and the window `[1, 3)` the selected pairs
are exactly those with `1 ≤ x < 3`. -/
theorem C1_selectdomain_window_witness :
    selectdomain [0, 1, 2, 3] [5, 6, 7, 8] (1, 3) =
      (([(0 : ℚ), 1, 2, 3].zip [(5 : ℚ), 6, 7, 8]).filter
        (fun q => decide (1 ≤ q.1 ∧ q.1 < 3))).unzip ∧
    ((∀ t ∈ [(0 : ℚ), 1, 2, 3], 1 ≤ t ∧ t < 3) →
      selectdomain [0, 1, 2, 3] [5, 6, 7, 8] (1, 3) = ([0, 1, 2, 3], [5, 6, 7, 8])) :=
  C1_selectdomain_window [0, 1, 2, 3] [5, 6, 7, 8] 1 3 (by decide) (by decide)

/-- Embedding of `Ngaussfunc(p, x)` (`src/kfit.py:776-786`).  `expf` stands
for the transcendental kernel `t ↦ math.e ** t`.  The peak count is
`N = int((len(p)-1)/3.)` (truncating division), the accumulator starts at the
offset `p[0]`, and iteration `n` adds
`p[3n+1] * e ** (-1/2 * (x - p[3n+2])**2 / p[3n+3]**2)`. -/
def Ngaussfunc (expf : ℚ → ℚ) (p : List ℚ) (x : ℚ) : ℚ :=
  (List.range ((p.length - 1) / 3)).foldl
    (fun acc n =>
      acc + p.getD (3 * n + 1) 0 *
        expf ((-1) / 2 * (x - p.getD (3 * n + 2) 0) ^ 2 / (p.getD (3 * n + 3) 0) ^ 2))
    (p.getD 0 0)

/-- Embedding of `Ngaussfunc_no_offset(p, x)` (`src/kfit.py:788-798`).  The
source reuses the with-offset bookkeeping verbatim: the peak count is again
`N = int((len(p)-1)/3.)` and the parameter triple of iteration `n` is read at
indices `3n+1, 3n+2, 3n+3`, even though the accumulator starts at `0` and the
docstring lays the peaks out as `[A1, f1, sigma1, A2, f2, sigma2, ...]`
starting at index `0`. -/
def Ngaussfunc_no_offset (expf : ℚ → ℚ) (p : List ℚ) (x : ℚ) : ℚ :=
  (List.range ((p.length - 1) / 3)).foldl
    (fun acc n =>
      acc + p.getD (3 * n + 1) 0 *
        expf ((-1) / 2 * (x - p.getD (3 * n + 2) 0) ^ 2 / (p.getD (3 * n + 3) 0) ^ 2))
    0

/-- C2.  `Ngaussfunc_no_offset` does not compute the documented sum of `N`
Gaussians for a parameter vector of length `3N`: for the single-peak vector
`p = [A, c, sigma] = [1, 0, 1]` it computes `int((3-1)/3) = 0` peak terms and
returns `0` whatever the exponential kernel is, while the claimed value at
`x = 0` is `A * e ** 0 = 1`.  By contrast `Ngaussfunc` on the with-offset
vector `[2, 1, 0, 1]` (length `3N+1`, `N = 1`) does return
`offset + A * e ** (-(1/2) * ((x-c)/sigma)^2) = 2 + e ** 0` at `x = 0`. -/
theorem C2_Ngaussfunc_no_offset_bug :
    (∀ expf : ℚ → ℚ, Ngaussfunc_no_offset expf [1, 0, 1] 0 = 0) ∧
    (∀ expf : ℚ → ℚ, Ngaussfunc expf [2, 1, 0, 1] 0 = 2 + expf 0) := by
  constructor
  · intro expf
    rfl
  · intro expf
    show (2 : ℚ) + 1 * expf ((-1) / 2 * ((0 : ℚ) - 0) ^ 2 / (1 : ℚ) ^ 2) = 2 + expf 0
    norm_num

/-- Message printed by `fitbetter`'s `except` branch (`src/kfit.py:106`). -/
def fitbetter_errmsg : String :=
  "Error encountered in calculating errors on fit parameters. This may result from a very flat parameter space"

/-- Outcome of a `fitbetter` call, after `optimize.curve_fit` has produced
`bestfitparams` and `covmatrix` (`src/kfit.py:100-119`). -/
inductive FitbetterOutcome where
  /-- `show_diagnostics=False`: the bare best-fit vector is returned. -/
  | params (p : List ℚ)
  /-- `show_diagnostics=True` with standard errors available. -/
  | paramsWithErrors (p perr : List ℚ)
  /-- The call aborts: `return bestfitparams, fitparam_errors` reads the
  local `fitparam_errors`, which was never assigned because
  `np.sqrt(np.diag(covmatrix))` raised and the `except` branch only prints. -/
  | unboundLocalError
deriving DecidableEq

/-- Embedding of the tail of `fitbetter` (`src/kfit.py:99-119`).
`sqrtDiagCov` is the result of the `try` block computing
`np.sqrt(np.diag(covmatrix))`: `some perr` when it succeeds, `none` when it
raises (the `except` branch prints `fitbetter_errmsg` and falls through).
The returned message list records what was printed. -/
def fitbetter_return (bestfitparams : List ℚ) (sqrtDiagCov : Option (List ℚ))
    (show_diagnostics : Bool) : FitbetterOutcome × List String :=
  match sqrtDiagCov, show_diagnostics with
  | some perr, true => (.paramsWithErrors bestfitparams perr, [])
  | some _, false => (.params bestfitparams, [])
  | none, true => (.unboundLocalError, [fitbetter_errmsg])
  | none, false => (.params bestfitparams, [fitbetter_errmsg])

/-- C3.  When the covariance matrix cannot be converted to standard errors,
a `fitbetter` call with `show_diagnostics=True` (the form used by `fitlor`,
`fit_parabola`, `fitpoly`, `fit_s11`, ...) does NOT return the best-fit
parameters: the recovery message is printed but the call then aborts with an
`UnboundLocalError`, because the `except` branch never assigns
`fitparam_errors`.  Only the `show_diagnostics=False` path survives the
failure and returns the bare parameter vector. -/
theorem C3_fitbetter_error_paths :
    fitbetter_return [1, 2, 3] none true = (.unboundLocalError, [fitbetter_errmsg]) ∧
    fitbetter_return [1, 2, 3] none false = (.params [1, 2, 3], [fitbetter_errmsg]) :=
  ⟨rfl, rfl⟩

/-- What a fit wrapper's parameter-handling prelude does before any
optimizer runs. -/
structure DispatchOutcome where
  /-- Console messages printed by the prelude. -/
  messages : List String
  /-- Whether the wrapper goes on to invoke the least-squares engine
  (`fitgeneral` / `fitbetter`). -/
  engine : Bool
  /-- An uncaught Python exception raised before the engine call, if any. -/
  exn : Option String
deriving DecidableEq

/-- Embedding of the `fitparams is None` prelude of `fit_double_lor`
(`src/kfit.py:231-236`): it prints a request for guesses but falls through
to `fitgeneral(..., fitparams, ...)` with `fitparams` still `None`. -/
def fit_double_lor_dispatch (fitparams : Option (List ℚ)) : DispatchOutcome :=
  match fitparams with
  | none => ⟨["Please provide some initial guesses."], true, none⟩
  | some _ => ⟨[], true, none⟩

/-- Embedding of the `fitparams is None` prelude of `fit_N_gauss`
(`src/kfit.py:261-270`): prints, then calls `fitgeneral` regardless. -/
def fit_N_gauss_dispatch (fitparams : Option (List ℚ)) : DispatchOutcome :=
  match fitparams with
  | none => ⟨["Please provide some initial guesses."], true, none⟩
  | some _ => ⟨[], true, none⟩

/-- Embedding of the `fitparams is None` prelude of `fit_kinetic_fraction`
(`src/kfit.py:200-208`): prints, then executes
`if Tc_fixed: fitparams = fitparams[:2]` — slicing `None` raises a
`TypeError` — and otherwise calls `fitgeneral` with `fitparams = None`. -/
def fit_kinetic_fraction_dispatch (fitparams : Option (List ℚ)) (Tc_fixed : Bool) :
    DispatchOutcome :=
  match fitparams, Tc_fixed with
  | none, true => ⟨["Please provide some initial guesses."], false, some "TypeError"⟩
  | none, false => ⟨["Please provide some initial guesses."], true, none⟩
  | some _, _ => ⟨[], true, none⟩

/-- Embedding of the `fitparams is None` prelude of `fitpoly`
(`src/kfit.py:657-659`): prints and returns immediately (`return` with no
value), so the engine is never invoked. -/
def fitpoly_dispatch (fitparams : Option (List ℚ)) : DispatchOutcome :=
  match fitparams with
  | none => ⟨["Please specify fit parameters in function input"], false, none⟩
  | some _ => ⟨[], true, none⟩

/-- Embedding of the `fitparams is None` prelude of `fit_parabola`
(`src/kfit.py:480-482`): prints and returns immediately. -/
def fit_parabola_dispatch (fitparams : Option (List ℚ)) : DispatchOutcome :=
  match fitparams with
  | none => ⟨["Please specify fit parameters in function input"], false, none⟩
  | some _ => ⟨[], true, none⟩

/-- C4 (counterexample).  With `fitparams` omitted, `fit_double_lor`,
`fit_N_gauss` and `fit_kinetic_fraction` (with the default `Tc_fixed=False`)
all still invoke the least-squares engine after printing their message — the
fit IS attempted, contradicting the claim that it is not. -/
theorem C4_missing_guess_counterexample :
    (fit_double_lor_dispatch none).engine = true ∧
    (fit_N_gauss_dispatch none).engine = true ∧
    (fit_kinetic_fraction_dispatch none false).engine = true :=
  ⟨rfl, rfl, rfl⟩

/-- C4 (amended).  With `fitparams` omitted, every one of the five wrappers
without a default heuristic prints a "supply initial guesses" message, but
only `fitpoly` and `fit_parabola` return immediately without attempting the
fit; `fit_double_lor` and `fit_N_gauss` proceed to call the engine with the
absent parameter vector, and `fit_kinetic_fraction` does so too when
`Tc_fixed=False` (with `Tc_fixed=True` it instead dies on a `TypeError`
while slicing `None`). -/
theorem C4_missing_guess_dispatch :
    fitpoly_dispatch none =
      ⟨["Please specify fit parameters in function input"], false, none⟩ ∧
    fit_parabola_dispatch none =
      ⟨["Please specify fit parameters in function input"], false, none⟩ ∧
    fit_double_lor_dispatch none =
      ⟨["Please provide some initial guesses."], true, none⟩ ∧
    fit_N_gauss_dispatch none =
      ⟨["Please provide some initial guesses."], true, none⟩ ∧
    fit_kinetic_fraction_dispatch none false =
      ⟨["Please provide some initial guesses."], true, none⟩ ∧
    fit_kinetic_fraction_dispatch none true =
      ⟨["Please provide some initial guesses."], false, some "TypeError"⟩ :=
  ⟨rfl, rfl, rfl, rfl, rfl, rfl⟩

/-- Embedding of `np.mean(ydata)` (`src/kfit.py:41`): sum over length. -/
def npmean (l : List ℚ) : ℚ := l.sum / (l.length : ℚ)

/-- Embedding of `total_sum_of_squares = np.sum((ydata-ybar)**2)`
(`src/kfit.py:42`). -/
def total_sum_of_squares (ydata : List ℚ) : ℚ :=
  (ydata.map (fun y => (y - npmean ydata) ^ 2)).sum

/-- Embedding of `residual_sum_of_squares = np.sum((ydata-ydatafit)**2)`
(`src/kfit.py:43`); the elementwise difference of two equal-length arrays is
a `zipWith`. -/
def residual_sum_of_squares (ydata ydatafit : List ℚ) : ℚ :=
  (List.zipWith (fun a b => (a - b) ^ 2) ydata ydatafit).sum

/-- Embedding of `get_rsquare(ydata, ydatafit)` (`src/kfit.py:32-44`),
returning `1 - residual_sum_of_squares/total_sum_of_squares`.  When the
total sum of squares is zero the float quotient is the degenerate NaN/inf
sentinel of spec section 4.3 rather than a number; that degenerate outcome
is modelled as `none`. -/
def get_rsquare (ydata ydatafit : List ℚ) : Option ℚ :=
  if total_sum_of_squares ydata = 0 then none
  else some (1 - residual_sum_of_squares ydata ydatafit / total_sum_of_squares ydata)

/-- The residual sum of squares of a list against itself is zero. -/
theorem residual_self_eq_zero (l : List ℚ) : residual_sum_of_squares l l = 0 := by
  unfold residual_sum_of_squares
  induction l with
  | nil => rfl
  | cons a t ih =>
    simp_all [List.zipWith_cons_cons]

/-- The residual sum of squares against the constant list at `m` is the sum
of squared deviations from `m`. -/
theorem residual_constmap (l : List ℚ) (m : ℚ) :
    residual_sum_of_squares l (l.map fun _ => m) = (l.map fun a => (a - m) ^ 2).sum := by
  unfold residual_sum_of_squares
  induction l with
  | nil => rfl
  | cons a t ih =>
    simp_all [List.zipWith_cons_cons]

/-- C5 (counterexample).  For the constant data `ydata = [1, 1]` the perfect
fit `ydatafit = ydata` does NOT give R-squared `1`: the total sum of squares
is `0`, so the quotient is the degenerate `0/0` float (NaN), modelled here
as `none`. -/
theorem C5_constant_data_counterexample :
    get_rsquare [1, 1] [1, 1] = none ∧ get_rsquare [1, 1] [1, 1] ≠ some 1 := by
  have h : total_sum_of_squares [1, 1] = 0 := by
    norm_num [total_sum_of_squares, npmean, List.sum_cons, List.map_cons]
  have hr : get_rsquare [1, 1] [1, 1] = none := by rw [get_rsquare, if_pos h]
  exact ⟨hr, by rw [hr]; exact fun hc => Option.noConfusion hc⟩

/-- C5 (amended).  For equal-length sequences with nonzero total sum of
squares, `get_rsquare` is exactly
`1 - residual_sum_of_squares/total_sum_of_squares`; consequently a perfect
fit scores exactly `1` and the constant fit at `mean(y_observed)` scores
exactly `0`.  When the total sum of squares vanishes (constant observed
data) the result is the degenerate NaN sentinel instead. -/
theorem C5_rsquare_amended (ydata ydatafit : List ℚ)
    (hlen : ydata.length = ydatafit.length)
    (htss : total_sum_of_squares ydata ≠ 0) :
    get_rsquare ydata ydatafit =
      some (1 - residual_sum_of_squares ydata ydatafit / total_sum_of_squares ydata) ∧
    get_rsquare ydata ydata = some 1 ∧
    get_rsquare ydata (ydata.map fun _ => npmean ydata) = some 0 := by
  refine ⟨by rw [get_rsquare, if_neg htss], ?_, ?_⟩
  · rw [get_rsquare, if_neg htss, residual_self_eq_zero]
    norm_num
  · rw [get_rsquare, if_neg htss, residual_constmap]
    have : (ydata.map fun a => (a - npmean ydata) ^ 2).sum = total_sum_of_squares ydata := rfl
    rw [this, div_self htss]
    norm_num

/-- C5 (witness).  The amended theorem evaluated at `ydata = [1, 2]`,
`ydatafit = [1, 1]`, whose total sum of squares is `1/2 ≠ 0`. -/
theorem C5_rsquare_witness :
    get_rsquare [1, 2] [1, 1] =
      some (1 - residual_sum_of_squares [1, 2] [1, 1] / total_sum_of_squares [1, 2]) ∧
    get_rsquare [1, 2] [1, 2] = some 1 ∧
    get_rsquare [1, 2] ([(1 : ℚ), 2].map fun _ => npmean [1, 2]) = some 0 :=
  C5_rsquare_amended [1, 2] [1, 1] rfl
    (by norm_num [total_sum_of_squares, npmean, List.sum_cons, List.map_cons])

/-- Embedding of the post-fit sign normalization and return of `fitlor`
(`src/kfit.py:171-176`): `p1[3] = abs(p1[3])` followed by
`return p1, p1_errors`. -/
def fitlor_return (p1 p1_errors : List ℚ) : List ℚ × List ℚ :=
  (p1.set 3 |p1.getD 3 0|, p1_errors)

/-- C7.  Whatever sign the optimizer produced, the half-width-at-half-max
entry (index 3) of the parameter vector returned by `fitlor` is
non-negative. -/
theorem C7_hwhm_nonneg (p1 p1_errors : List ℚ) :
    0 ≤ (fitlor_return p1 p1_errors).1.getD 3 0 := by
  rcases p1 with _ | ⟨a, _ | ⟨b, _ | ⟨c, _ | ⟨d, t⟩⟩⟩⟩ <;>
    simp [fitlor_return, List.getD, abs_nonneg]

/-- Embedding of `max(l)` / `np.max` on a nonempty array: fold of the
binary maximum over the elements (`0` on the empty list, where the Python
call would raise). -/
def npmax : List ℚ → ℚ
  | [] => 0
  | a :: t => t.foldl max a

/-- Embedding of `min(l)` / `np.min` on a nonempty array. -/
def npmin : List ℚ → ℚ
  | [] => 0
  | a :: t => t.foldl min a

/-- Embedding of `np.argmax(l)`: index of the FIRST occurrence of the
maximum (`0` on the empty list, where numpy would raise). -/
def npargmax : List ℚ → ℕ
  | [] => 0
  | a :: t => if npmax (a :: t) = a then 0 else npargmax t + 1

/-- The seed of a max-fold is a lower bound of the result. -/
theorem le_foldl_max (l : List ℚ) (a : ℚ) : a ≤ l.foldl max a := by
  induction l generalizing a with
  | nil => exact le_rfl
  | cons b t ih => exact le_trans (le_max_left a b) (ih (max a b))

/-- Every member of the list is a lower bound of a max-fold over it. -/
theorem mem_le_foldl_max (l : List ℚ) (a b : ℚ) (hb : b ∈ l) : b ≤ l.foldl max a := by
  induction l generalizing a with
  | nil => cases hb
  | cons c t ih =>
    rw [List.foldl_cons]
    rcases List.mem_cons.1 hb with rfl | h
    · exact le_trans (le_max_right a b) (le_foldl_max t (max a b))
    · exact ih (max a c) h

/-- A max-fold returns its seed or a member of the list. -/
theorem foldl_max_mem (l : List ℚ) (a : ℚ) : l.foldl max a = a ∨ l.foldl max a ∈ l := by
  induction l generalizing a with
  | nil => exact Or.inl rfl
  | cons b t ih =>
    rcases ih (max a b) with h | h
    · rcases max_choice a b with hm | hm
      · exact Or.inl (by rw [List.foldl_cons, h, hm])
      · exact Or.inr (by rw [List.foldl_cons, h, hm]; exact List.mem_cons_self b t)
    · exact Or.inr (List.mem_cons_of_mem b h)

/-- Over a nonempty list, a max-fold is the maximum of the seed and the
list's `npmax`. -/
theorem foldl_max_eq_max_npmax : ∀ (l : List ℚ) (a : ℚ), l ≠ [] →
    l.foldl max a = max a (npmax l)
  | [], _, h => absurd rfl h
  | [b], a, _ => by simp [npmax]
  | b :: c :: u, a, _ => by
    have ih := foldl_max_eq_max_npmax (c :: u)
    rw [List.foldl_cons, ih (max a b) (by simp)]
    have hb : npmax (b :: c :: u) = max b (npmax (c :: u)) := ih b (by simp)
    rw [hb, max_assoc]

/-- The maximum of a nonempty list is attained by one of its elements. -/
theorem npmax_mem : ∀ (l : List ℚ), l ≠ [] → npmax l ∈ l
  | [], h => absurd rfl h
  | a :: t, _ => by
    show t.foldl max a ∈ a :: t
    rcases foldl_max_mem t a with h1 | h1
    · rw [h1]; exact List.mem_cons_self a t
    · exact List.mem_cons_of_mem a h1

/-- `npmax` bounds every element of the list from above. -/
theorem le_npmax (l : List ℚ) (b : ℚ) (hb : b ∈ l) : b ≤ npmax l := by
  cases l with
  | nil => cases hb
  | cons a t =>
    show b ≤ t.foldl max a
    rcases List.mem_cons.1 hb with h | h
    · exact h ▸ le_foldl_max t a
    · exact mem_le_foldl_max t a b h

/-- A min-fold is bounded above by its seed. -/
theorem foldl_min_le (l : List ℚ) (a : ℚ) : l.foldl min a ≤ a := by
  induction l generalizing a with
  | nil => exact le_rfl
  | cons b t ih => exact le_trans (ih (min a b)) (min_le_left a b)

/-- A min-fold is bounded above by every member of the list. -/
theorem foldl_min_le_mem (l : List ℚ) (a b : ℚ) (hb : b ∈ l) : l.foldl min a ≤ b := by
  induction l generalizing a with
  | nil => cases hb
  | cons c t ih =>
    rw [List.foldl_cons]
    rcases List.mem_cons.1 hb with rfl | h
    · exact le_trans (foldl_min_le t (min a b)) (min_le_right a b)
    · exact ih (min a c) h

/-- A min-fold returns its seed or a member of the list. -/
theorem foldl_min_mem (l : List ℚ) (a : ℚ) : l.foldl min a = a ∨ l.foldl min a ∈ l := by
  induction l generalizing a with
  | nil => exact Or.inl rfl
  | cons b t ih =>
    rcases ih (min a b) with h | h
    · rcases min_choice a b with hm | hm
      · exact Or.inl (by rw [List.foldl_cons, h, hm])
      · exact Or.inr (by rw [List.foldl_cons, h, hm]; exact List.mem_cons_self b t)
    · exact Or.inr (List.mem_cons_of_mem b h)

/-- The minimum of a nonempty list is attained by one of its elements. -/
theorem npmin_mem : ∀ (l : List ℚ), l ≠ [] → npmin l ∈ l
  | [], h => absurd rfl h
  | a :: t, _ => by
    show t.foldl min a ∈ a :: t
    rcases foldl_min_mem t a with h1 | h1
    · rw [h1]; exact List.mem_cons_self a t
    · exact List.mem_cons_of_mem a h1

/-- `npmin` bounds every element of the list from below. -/
theorem npmin_le (l : List ℚ) (b : ℚ) (hb : b ∈ l) : npmin l ≤ b := by
  cases l with
  | nil => cases hb
  | cons a t =>
    show t.foldl min a ≤ b
    rcases List.mem_cons.1 hb with h | h
    · exact h ▸ foldl_min_le t a
    · exact foldl_min_le_mem t a b h

/-- When the head does not attain the maximum, the maximum comes from the
tail. -/
theorem npmax_cons_of_ne (a : ℚ) (t : List ℚ) (hne : npmax (a :: t) ≠ a) :
    npmax (a :: t) = npmax t := by
  have ht : t ≠ [] := fun h0 => by subst h0; exact hne rfl
  have h1 : npmax (a :: t) = max a (npmax t) := foldl_max_eq_max_npmax t a ht
  rcases max_choice a (npmax t) with hm | hm
  · exact absurd (h1.trans hm) hne
  · exact h1.trans hm

/-- `np.argmax` returns a valid index of a nonempty list. -/
theorem npargmax_lt_length : ∀ (l : List ℚ), l ≠ [] → npargmax l < l.length
  | [], h => absurd rfl h
  | a :: t, _ => by
    rw [npargmax]
    split
    · simp
    · rename_i hne
      have ht : t ≠ [] := fun h0 => by subst h0; exact hne rfl
      have := npargmax_lt_length t ht
      simpa [List.length_cons] using Nat.succ_lt_succ this

/-- The element at the `np.argmax` index is the maximum. -/
theorem getD_npargmax : ∀ (l : List ℚ), l ≠ [] → l.getD (npargmax l) 0 = npmax l
  | [], h => absurd rfl h
  | a :: t, _ => by
    rw [npargmax]
    split
    · rename_i heq
      simpa using heq.symm
    · rename_i hne
      have ht : t ≠ [] := fun h0 => by subst h0; exact hne rfl
      rw [List.getD_cons_succ, getD_npargmax t ht, npmax_cons_of_ne a t hne]

/-- `np.argmax` returns the FIRST index attaining the maximum: every earlier
entry is strictly below it (in particular different from it). -/
theorem npargmax_first : ∀ (l : List ℚ) (j : ℕ), j < npargmax l →
    l.getD j 0 ≠ npmax l
  | [], j, hj => by rw [npargmax] at hj; exact absurd hj (Nat.not_lt_zero j)
  | a :: t, j, hj => by
    rw [npargmax] at hj
    split at hj
    · exact absurd hj (Nat.not_lt_zero j)
    · rename_i hne
      cases j with
      | zero =>
        rw [List.getD_cons_zero]
        exact fun hc => hne hc.symm
      | succ j' =>
        rw [List.getD_cons_succ, npmax_cons_of_ne a t hne]
        exact npargmax_first t j' (Nat.lt_of_succ_lt_succ hj)

/-- Embedding of the default initial-guess block of `fitlor`
(`src/kfit.py:155-160`):
`[(y[0]+y[-1])/2, max(y)-min(y), x[argmax(y)], (max(x)-min(x))/10]`. -/
def fitlor_fitparams (fitdatax fitdatay : List ℚ) : List ℚ :=
  [(fitdatay.headD 0 + fitdatay.getLastD 0) / 2,
   npmax fitdatay - npmin fitdatay,
   fitdatax.getD (npargmax fitdatay) 0,
   (npmax fitdatax - npmin fitdatax) / 10]

/-- Embedding of the default initial-guess block of `fitgauss`
(`src/kfit.py:412-417`): identical to the Lorentzian heuristic except that
the width seed is `(max(x)-min(x))/3`. -/
def fitgauss_fitparams (fitdatax fitdatay : List ℚ) : List ℚ :=
  [(fitdatay.headD 0 + fitdatay.getLastD 0) / 2,
   npmax fitdatay - npmin fitdatay,
   fitdatax.getD (npargmax fitdatay) 0,
   (npmax fitdatax - npmin fitdatax) / 3]

/-- C6.  On a nonempty dataset `(x0::xs, y0::ys)` with `fitparams` omitted,
`fitlor` and `fitgauss` construct exactly the guess vector
`[offset = (first y + last y)/2, amplitude = max(y) - min(y),
center = x at argmax(y), width = span(x)/10 resp. span(x)/3]`, where
`max`/`min` really are the extrema of the data (attained members bounding
every element) and `argmax` really is the first index attaining the
maximum. -/
theorem C6_initial_guess_vectors (x0 : ℚ) (xs : List ℚ) (y0 : ℚ) (ys : List ℚ) :
    fitlor_fitparams (x0 :: xs) (y0 :: ys) =
      [((y0 :: ys).headD 0 + (y0 :: ys).getLastD 0) / 2,
       npmax (y0 :: ys) - npmin (y0 :: ys),
       (x0 :: xs).getD (npargmax (y0 :: ys)) 0,
       (npmax (x0 :: xs) - npmin (x0 :: xs)) / 10] ∧
    fitgauss_fitparams (x0 :: xs) (y0 :: ys) =
      [((y0 :: ys).headD 0 + (y0 :: ys).getLastD 0) / 2,
       npmax (y0 :: ys) - npmin (y0 :: ys),
       (x0 :: xs).getD (npargmax (y0 :: ys)) 0,
       (npmax (x0 :: xs) - npmin (x0 :: xs)) / 3] ∧
    npmax (y0 :: ys) ∈ y0 :: ys ∧
    (∀ b ∈ y0 :: ys, b ≤ npmax (y0 :: ys)) ∧
    npmin (y0 :: ys) ∈ y0 :: ys ∧
    (∀ b ∈ y0 :: ys, npmin (y0 :: ys) ≤ b) ∧
    npargmax (y0 :: ys) < (y0 :: ys).length ∧
    (y0 :: ys).getD (npargmax (y0 :: ys)) 0 = npmax (y0 :: ys) ∧
    (∀ j < npargmax (y0 :: ys), (y0 :: ys).getD j 0 ≠ npmax (y0 :: ys)) :=
  ⟨rfl, rfl,
   npmax_mem (y0 :: ys) (by simp),
   fun b hb => le_npmax (y0 :: ys) b hb,
   npmin_mem (y0 :: ys) (by simp),
   fun b hb => npmin_le (y0 :: ys) b hb,
   npargmax_lt_length (y0 :: ys) (by simp),
   getD_npargmax (y0 :: ys) (by simp),
   fun j hj => npargmax_first (y0 :: ys) j hj⟩

/-- Embedding of `kinfunc(p, x)` (`src/kfit.py:707-723`).  Returns the value
`f0*(1 - alpha/2.*1/(1-(x/Tc)**4))` together with the list of console
messages: when `len(p) != 3` the critical temperature defaults to `1.2` and
`"Assuming Tc = %.2f K" % Tc` is printed. -/
def kinfunc (p : List ℚ) (x : ℚ) : ℚ × List String :=
  let f0 := p.getD 0 0
  let alpha := p.getD 1 0
  let TcLog : ℚ × List String :=
    if p.length = 3 then (p.getD 2 0, [])
    else (6 / 5, ["Assuming Tc = 1.20 K"])
  (f0 * (1 - alpha / 2 * 1 / (1 - (x / TcLog.1) ^ 4)), TcLog.2)

/-- C8.  With a length-3 parameter vector `kinfunc` evaluates the
kinetic-inductance lineshape at `Tc = p[2]` and prints nothing; with a
length-2 vector it evaluates the same formula at the default `Tc = 1.2`
(= 6/5) and logs the assumption as a console observation. -/
theorem C8_kinfunc_variants (f0 alpha Tc x : ℚ) :
    kinfunc [f0, alpha, Tc] x =
      (f0 * (1 - alpha / 2 * 1 / (1 - (x / Tc) ^ 4)), []) ∧
    kinfunc [f0, alpha] x =
      (f0 * (1 - alpha / 2 * 1 / (1 - (x / (6 / 5)) ^ 4)), ["Assuming Tc = 1.20 K"]) := by
  constructor <;> simp [kinfunc]

/-- Embedding of `polyfunc(p, x)` (`src/kfit.py:923-933`), the
parameters-first arbitrary-order polynomial: `y = 0`, then
`for n, P in enumerate(p): y += P * x**n`. -/
def polyfunc (p : List ℚ) (x : ℚ) : ℚ :=
  p.enum.foldl (fun y q => y + q.2 * x ^ q.1) 0

/-- Embedding of `polyfunc_v2(x, *p)` (`src/kfit.py:935-945`), the x-first
variadic convention with the identical loop body. -/
def polyfunc_v2 (x : ℚ) (p : List ℚ) : ℚ :=
  p.enum.foldl (fun y q => y + q.2 * x ^ q.1) 0

/-- Accumulating the enumerated monomials from index `k` adds the shifted
polynomial sum to the accumulator. -/
theorem foldl_enumFrom_poly (l : List ℚ) (k : ℕ) (acc x : ℚ) :
    (l.enumFrom k).foldl (fun y q => y + q.2 * x ^ q.1) acc =
      acc + ∑ n ∈ Finset.range l.length, l.getD n 0 * x ^ (k + n) := by
  induction l generalizing k acc with
  | nil => simp
  | cons a t ih =>
    rw [List.enumFrom_cons, List.foldl_cons, ih, List.length_cons,
      Finset.sum_range_succ']
    simp only [List.getD_cons_succ, List.getD_cons_zero, Nat.add_zero]
    have hsum : ∑ n ∈ Finset.range t.length, t.getD n 0 * x ^ (k + 1 + n) =
        ∑ n ∈ Finset.range t.length, t.getD n 0 * x ^ (k + (n + 1)) := by
      refine Finset.sum_congr rfl fun n _ => ?_
      have he : k + 1 + n = k + (n + 1) := by omega
      rw [he]
    rw [hsum]
    ring

/-- C9.  The params-first and x-first variadic polynomial models are
extensionally equal, and both denote the mathematical polynomial
`Σ_n p[n] * x^n` of order `len(p) - 1`. -/
theorem C9_polyfunc_conventions (p : List ℚ) (x : ℚ) :
    polyfunc p x = polyfunc_v2 x p ∧
    polyfunc p x = ∑ n ∈ Finset.range p.length, p.getD n 0 * x ^ n := by
  refine ⟨rfl, ?_⟩
  have h := foldl_enumFrom_poly p 0 0 x
  simp only [zero_add] at h
  simpa [polyfunc, List.enum] using h

/-- Embedding of `decaysin(p, x)` (`src/kfit.py:818-825`), the documented
six-parameter decaying sine
`p[0]*sin(2*pi*p[1]*x + p[2]*pi/180) * e**(-1*(x-p[5])/p[3]) + p[4]`.
`sinf` and `expf` stand for `np.sin` and `t ↦ np.e ** t`, and `piq` for
`np.pi`. -/
def decaysin (sinf expf : ℚ → ℚ) (piq : ℚ) (p : List ℚ) (x : ℚ) : ℚ :=
  p.getD 0 0 * sinf (2 * piq * p.getD 1 0 * x + p.getD 2 0 * piq / 180) *
    expf ((-1) * (x - p.getD 5 0) / p.getD 3 0) + p.getD 4 0

/-- Embedding of the local closure `decaysin3` built inside `fitdecaysin`
(`src/kfit.py:355`): the same lineshape with the reference time `t0` frozen
to a captured constant instead of a parameter entry. -/
def decaysin3 (sinf expf : ℚ → ℚ) (piq t0 : ℚ) (p : List ℚ) (x : ℚ) : ℚ :=
  p.getD 0 0 * sinf (2 * piq * p.getD 1 0 * x + p.getD 2 0 * piq / 180) *
    expf ((-1) * (x - t0) / p.getD 3 0) + p.getD 4 0

/-- The constant captured by `decaysin3` in `fitdecaysin`
(`src/kfit.py:337-355`): `fitdatax[0]`, the first x-value of the
(domain-restricted) data. -/
def fitdecaysin_t0 (xdata ydata : List ℚ) (domain : Option (ℚ × ℚ)) : ℚ :=
  match domain with
  | some d => (selectdomain xdata ydata d).1.headD 0
  | none => xdata.headD 0

/-- The model function `fitdecaysin` actually hands to the least-squares
engine (`src/kfit.py:355-356`). -/
def fitdecaysin_model (sinf expf : ℚ → ℚ) (piq : ℚ) (xdata ydata : List ℚ)
    (domain : Option (ℚ × ℚ)) (p : List ℚ) (x : ℚ) : ℚ :=
  decaysin3 sinf expf piq (fitdecaysin_t0 xdata ydata domain) p x

/-- C10.  The model `fitdecaysin` fits is the documented six-parameter
`decaysin` with its reference time `t0` (index 5) frozen to the first
x-value of the (domain-restricted) data: the fitted function at any
parameter vector `p` equals `decaysin` at
`[p[0], p[1], p[2], p[3], p[4], fitdatax[0]]`, so only the five leading
entries influence the fit and the documented sixth parameter is never
adjusted by the optimizer. -/
theorem C10_decaysin_t0_fixed (sinf expf : ℚ → ℚ) (piq : ℚ)
    (xdata ydata : List ℚ) (domain : Option (ℚ × ℚ)) (p : List ℚ) (x : ℚ) :
    fitdecaysin_model sinf expf piq xdata ydata domain p x =
      decaysin sinf expf piq
        [p.getD 0 0, p.getD 1 0, p.getD 2 0, p.getD 3 0, p.getD 4 0,
          fitdecaysin_t0 xdata ydata domain] x := by
  rfl

end Kfit
